import Mathlib

set_option maxRecDepth 10000

/- Verification of the magnetic-stripe decode pipeline of `main.py`
(sr105/square-reader).

Modelling conventions, used throughout:
* a Python list of bits is a `List ℕ`;
* a PCM byte string is modelled at sample granularity as a `List ℤ`
  (one entry per signed 16-bit sample, width 2), so a byte offset `k`
  in the source becomes the sample offset `k / 2` here;
* Python floats are modelled as exact rationals `ℚ`;
* an uncaught non-`DecodeError` crash (`IndexError`, `ZeroDivisionError`)
  or nontermination of a loop is modelled as `Option.none`;
* a character is its ASCII code (`';' = 59`, `'?' = 63`).

Loops that the source drives by an integer index are written with an
explicit fuel argument so that every definition reduces in the kernel;
the fuel supplied by the wrappers is large enough that it is never the
reason a loop stops, except where the source itself would not terminate
(and then the result is `none`). -/

/-- Exception type of `main.py` (`class DecodeError(Exception)`), one
constructor per distinct message raised by the decode pipeline:
`noBits` is "No bits were found. Bad swipe or microphone level is wrong?",
`noStart` is "No start sentinal", `badLRC` is "Bad LRC",
`noEnd` is "No end sentinal". -/
inductive DecodeError where
  | noBits
  | noStart
  | badLRC
  | noEnd
  deriving DecidableEq, Repr

/-- Function `bcd_chr` of `main.py`:
`chr(int("".join(map(str, byte[-2::-1])), 2) + 48)`.
The slice `byte[-2::-1]` is the reverse of `byte[:-1]`, i.e. all bits except
the final parity bit, most significant digit first; the decoded character is
returned as its ASCII code. -/
def bcd_chr (byte : List ℕ) : ℕ :=
  byte.dropLast.reverse.foldl (fun a b => 2 * a + b) 0 + 48

/-- Leading-zero strip of `get_bytes`
(`while bits[0] == 0: bits = bits[1:]`).  When every bit is stripped the
next check `bits[0]` raises an uncaught `IndexError`: that crash is `none`. -/
def stripZeros : List ℕ → Option (List ℕ)
  | [] => none
  | b :: rest => if b = 0 then stripZeros rest else some (b :: rest)

/-- Framing loop of `get_bytes` at the default width 5
(`byte, bits = bits[:width], bits[width:]`).  A short group ends framing
without being emitted.  A full group is emitted even when its odd-parity
check fails: on parity failure the source only logs and pretty-prints the
tail, its `return` being commented out (`# TODO: normally return here...`),
and then falls through to `yield byte`. -/
def frameLoop : List ℕ → List (List ℕ)
  | b1 :: b2 :: b3 :: b4 :: b5 :: rest => [b1, b2, b3, b4, b5] :: frameLoop rest
  | _ => []

/-- Function `get_bytes` of `main.py`, consumed eagerly by `list(...)`:
empty input raises `DecodeError` (`noBits`); otherwise the leading zeros are
stripped (`none` records the `IndexError` crash of an all-zero input) and the
remaining bits are framed into width-5 groups. -/
def get_bytes (bits : List ℕ) : Option (Except DecodeError (List (List ℕ))) :=
  if bits = [] then some (Except.error DecodeError.noBits)
  else
    match stripZeros bits with
    | none => none
    | some stripped => some (Except.ok (frameLoop stripped))

/-- One LRC-accumulator update of `get_bcd_chars`
(`for i in range(len(lrc) - 1): lrc[i] = (lrc[i] + byte[i]) % 2`):
every position except the last (the parity bit) absorbs the corresponding
bit of the new group mod 2; the last position is kept unchanged. -/
def lrcStep (lrc byte : List ℕ) : List ℕ :=
  lrc.dropLast.zipWith (fun a b => (a + b) % 2) byte ++ lrc.drop (lrc.length - 1)

/-- Finalization of the LRC accumulator on seeing the end sentinel
(`lrc[-1] = sum(lrc[:-1], 1) % 2`): the parity slot becomes
`(1 + sum of the data bits) mod 2`. -/
def finalizeLRC (lrc : List ℕ) : List ℕ :=
  lrc.dropLast ++ [(1 + lrc.dropLast.sum) % 2]

/-- Decode loop of `get_bcd_chars` (the `while 1` over `ibytes`, with `lrc`
the running accumulator).  Each group is decoded, folded into the
accumulator, and yielded unless it is the end sentinel; at the sentinel the
accumulator is finalized, one further group is read as the literal trailing
LRC byte and compared for exact equality (`Bad LRC` on mismatch).  Running
out of groups at either `next(ibytes)` raises `StopIteration`, caught and
re-raised as `DecodeError` `noEnd` ("No end sentinal"). -/
def decodeLoop : List ℕ → List (List ℕ) → Except DecodeError (List ℕ)
  | _, [] => Except.error DecodeError.noEnd
  | lrc, byte :: rest =>
    let c := bcd_chr byte
    let lrc2 := lrcStep lrc byte
    if c = 63 then
      match rest with
      | [] => Except.error DecodeError.noEnd
      | realLrc :: _ =>
        if realLrc = finalizeLRC lrc2 then Except.ok []
        else Except.error DecodeError.badLRC
    else
      match decodeLoop lrc2 rest with
      | Except.ok cs => Except.ok (c :: cs)
      | Except.error e => Except.error e

/-- Start-sentinel check and loop entry of `get_bcd_chars`
(`start = next(ibytes); if bcd_chr(start) != ";": raise ...`), applied to
the possibly re-oriented group list.  The `[]` case would be an uncaught
`StopIteration` at `start = next(ibytes)` (outside the `try`); it is
unreachable from `get_bcd_chars`, which only passes non-empty lists. -/
def decodeRecord : List (List ℕ) → Option (Except DecodeError (List ℕ))
  | [] => none
  | start :: rest =>
    if bcd_chr start ≠ 59 then some (Except.error DecodeError.noStart)
    else some (decodeLoop start rest)

/-- Function `get_bcd_chars` of `main.py`, consumed eagerly by
`"".join(...)`: on the empty list `bcd_chr(bytes[0])` raises an uncaught
`IndexError` (`none`); if the first group does not decode to `';'` the whole
list is re-oriented (`bytes = [byte[::-1] for byte in reversed(bytes)]`)
before the record is decoded. -/
def get_bcd_chars (bytes : List (List ℕ)) : Option (Except DecodeError (List ℕ)) :=
  match bytes with
  | [] => none
  | b0 :: rest =>
    if bcd_chr b0 ≠ 59 then decodeRecord ((b0 :: rest).reverse.map List.reverse)
    else decodeRecord (b0 :: rest)

/-- One rolling clock-window update of `get_bits` (`clocks.append(x)`
followed by `clocks.popleft()`). -/
def pushClock (clocks : List ℚ) (x : ℚ) : List ℚ :=
  (clocks ++ [x]).tail

/-- Main loop of `get_bits` (`while i < len(peaks) - 2`), indexing into the
fixed post-discard distance list exactly as the source does: a distance
above `1.5 * sum(clocks, 0.0) / len(clocks)` is bit 0 and advances one
distance, pushing half the distance into the window; otherwise bit 1
advances two distances, pushing the first consumed distance.  The fuel
argument only makes the recursion structural; `get_bits` supplies more fuel
than the loop can consume. -/
def getBitsLoop : ℕ → List ℚ → List ℚ → ℕ → List ℕ
  | 0, _, _, _ => []
  | fuel + 1, peaks, clocks, i =>
    if i < peaks.length - 2 then
      let peak := peaks.getD i 0
      if peak > 3 / 2 * clocks.sum / (clocks.length : ℚ) then
        0 :: getBitsLoop fuel peaks (pushClock clocks (peak / 2)) (i + 1)
      else
        1 :: getBitsLoop fuel peaks (pushClock clocks peak) (i + 2)
    else []

/-- Function `get_bits` of `main.py`: discard the first 5 distances
(`peaks = peaks[5:]`), seed the clock window with the next distances halved
(`deque([p / 2.0 for p in peaks[:4]])` — 4 of them when at least 4 remain,
fewer otherwise), then run the classification loop from index 0 of the
post-discard list. -/
def get_bits (peaks0 : List ℚ) : List ℕ :=
  let peaks := peaks0.drop 5
  getBitsLoop peaks.length peaks ((peaks.take 4).map (fun p => p / 2)) 0

/-- List-structural presentation of the classification loop of `get_bits`:
it consumes the remaining distances directly instead of indexing, running
only while at least 3 distances remain.  Used to state what each step of
the source loop does (claim C5). -/
def bitsSpec : List ℚ → List ℚ → List ℕ
  | clocks, d1 :: d2 :: d3 :: rest =>
    if d1 > 3 / 2 * clocks.sum / (clocks.length : ℚ) then
      0 :: bitsSpec (pushClock clocks (d1 / 2)) (d2 :: d3 :: rest)
    else
      1 :: bitsSpec (pushClock clocks d1) (d3 :: rest)
  | _, _ => []

/-- State-passing loop of CPython's `audioop.maxpp` (Modules/audioop.c),
at sample granularity: walk the samples tracking the previous value, the
previous direction of change (`none` until the first change; `true` means
falling), the previous local extreme (`none` until one is seen) and the
running maximum of absolute differences between successive local extremes. -/
def maxppGo : List ℤ → ℤ → Option Bool → Option ℤ → ℤ → ℤ
  | [], _, _, _, maxv => maxv
  | val :: rest, prevval, prevdiff, prevext, maxv =>
    if val ≠ prevval then
      let diff : Bool := decide (val < prevval)
      if prevdiff = some (!diff) then
        maxppGo rest val (some diff) (some prevval)
          (match prevext with
           | some pe => max |prevval - pe| maxv
           | none => maxv)
      else maxppGo rest val (some diff) prevext maxv
    else maxppGo rest prevval prevdiff prevext maxv

/-- CPython's `audioop.maxpp(fragment, 2)` at sample granularity: the
maximum peak-to-peak swing, i.e. the largest absolute difference between
successive local extremes; 0 when the fragment holds at most one sample
(`len <= width`) or never changes direction. -/
def maxpp : List ℤ → ℤ
  | [] => 0
  | [_] => 0
  | v :: rest => maxppGo rest v none none 0

/-- Inner polarity run of `get_peaks`
(`while samples[i] * sign > peak_threshold: peak = max(...); i += 1`).
Returns the accumulated peak and the index where the run stopped; `none`
models the `IndexError` raised when the run reaches `len(samples)` and the
guard evaluates `samples[i]` out of bounds.  The fuel only makes the
recursion structural. -/
def peakRun : ℕ → List ℤ → ℚ → ℤ → ℕ → ℤ → Option (ℤ × ℕ)
  | 0, _, _, _, _, _ => none
  | fuel + 1, samples, threshold, sign, i, peak =>
    match samples[i]? with
    | none => none
    | some s =>
      if ((s * sign : ℤ) : ℚ) > threshold then
        peakRun fuel samples threshold sign (i + 1) (max (s * sign) peak)
      else some (peak, i)

/-- Outer loop of `get_peaks` (`while i < len(samples)`).  After each
polarity run: if a peak was found, the distance to the previous peak is
emitted (except for the very first peak, `old_i == 0`), the sign flips and
the threshold decays to `peak * 0.5` (SECOND_PEAK_FACTOR); in either case
the index then advances by one.  A `none` from the inner run (out-of-bounds
read) aborts the whole extraction. -/
def peaksLoop : ℕ → List ℤ → ℚ → ℤ → ℕ → ℕ → Option (List ℕ)
  | 0, _, _, _, _, _ => none
  | fuel + 1, samples, threshold, sign, old_i, i =>
    if i < samples.length then
      match peakRun (samples.length + 1) samples threshold sign i 0 with
      | none => none
      | some (peak, j) =>
        if peak ≠ 0 then
          match peaksLoop fuel samples ((peak : ℚ) * (1 / 2)) (-sign) j (j + 1) with
          | none => none
          | some l => some (if old_i ≠ 0 then (j - old_i) :: l else l)
        else peaksLoop fuel samples threshold sign old_i (j + 1)
    else some []

/-- Function `get_peaks` of `main.py` (eager, as consumed by `list(...)`),
at sample granularity: the initial threshold is
`audioop.maxpp(data[:1000], 2) * FIRST_PEAK_FACTOR`, i.e. the peak-to-peak
swing of the first 500 samples times 0.8 = 4/5; scanning starts with
positive polarity at index 0 with no previous peak. -/
def get_peaks (samples : List ℤ) : Option (List ℕ) :=
  peaksLoop (samples.length + 1) samples
    ((maxpp (samples.take 500) : ℚ) * (4 / 5)) 1 0 0

/-- Front-trim loop of `get_swipe`
(`while audioop.maxpp(data[:3000], 2) < baseline / 2: data = data[1000:]`)
at sample granularity: the 3000-byte probe window is the first 1500
samples, the dropped 1000-byte block is 500 samples.  An empty buffer whose
probe window still satisfies the condition loops forever in the source
(`maxpp(b"") = 0`); that divergence is `none`, and the fuel supplied by
`trim_front` is unreachable otherwise. -/
def trimFrontFuel : ℕ → List ℤ → ℚ → Option (List ℤ)
  | 0, _, _ => none
  | fuel + 1, data, baseline =>
    if (maxpp (data.take 1500) : ℚ) < baseline / 2 then
      if data = [] then none
      else trimFrontFuel fuel (data.drop 500) baseline
    else some data

/-- Front-trim step of `get_swipe` applied to the accepted swipe buffer. -/
def trim_front (data : List ℤ) (baseline : ℚ) : Option (List ℤ) :=
  trimFrontFuel (data.length + 1) data baseline

/-- Back-trim loop of `get_swipe`
(`while audioop.maxpp(data[-3000:], 2) < baseline / 2: data = data[:-1000]`)
at sample granularity: probe window = last 1500 samples, dropped block =
last 500 samples. -/
def trimBackFuel : ℕ → List ℤ → ℚ → Option (List ℤ)
  | 0, _, _ => none
  | fuel + 1, data, baseline =>
    if (maxpp (data.drop (data.length - 1500)) : ℚ) < baseline / 2 then
      if data = [] then none
      else trimBackFuel fuel (data.take (data.length - 500)) baseline
    else some data

/-- Back-trim step of `get_swipe` applied after the front trim. -/
def trim_back (data : List ℤ) (baseline : ℚ) : Option (List ℤ) :=
  trimBackFuel (data.length + 1) data baseline

/-- Both trim loops of `get_swipe` in source order: front edge first, then
back edge. -/
def trimSwipe (data : List ℤ) (baseline : ℚ) : Option (List ℤ) :=
  match trim_front data baseline with
  | none => none
  | some d => trim_back d baseline

/-- Comparator for claim C8, following the spec's words instead of the
source: a probe window of 3000 samples and dropped blocks of 1000 samples
(the source's `data[:3000]` / `data[1000:]` act on the byte string, which
at width 2 is 1500 and 500 samples).  Defined only to be compared against
`trim_front`. -/
def trimFrontSpecFuel : ℕ → List ℤ → ℚ → Option (List ℤ)
  | 0, _, _ => none
  | fuel + 1, data, baseline =>
    if (maxpp (data.take 3000) : ℚ) < baseline / 2 then
      if data = [] then none
      else trimFrontSpecFuel fuel (data.drop 1000) baseline
    else some data

/-- Spec-words front trim (window 3000 samples, blocks of 1000 samples). -/
def trim_front_spec (data : List ℤ) (baseline : ℚ) : Option (List ℤ) :=
  trimFrontSpecFuel (data.length + 1) data baseline

/-- Concrete 2000-sample buffer for claim C8: 1500 quiet samples followed
by a spike pair (peak-to-peak swing 1000) and a quiet tail. -/
def c8data : List ℤ :=
  List.replicate 1500 0 ++ ([1000, 0, 1000] ++ List.replicate 497 0)

/-- Claim C1 (code_bug evidence): the byte framer does not stop at an
even-parity group.  On the bits `[1,1,0,0,0]`, whose bit-sum 2 is even,
`get_bytes` emits the group `[1,1,0,0,0]` anyway, because the `return` on
parity failure is commented out in the source; the claim (and the spec) say
framing stops without emitting such a group. -/
theorem c1_even_parity_group_emitted :
    get_bytes [1, 1, 0, 0, 0] = some (Except.ok [[1, 1, 0, 0, 0]]) ∧
      ([1, 1, 0, 0, 0] : List ℕ).sum % 2 = 0 :=
  ⟨rfl, rfl⟩

/-- Helper for C2: stripping an all-zero bit list runs off its end, which the
source turns into an `IndexError` crash at `bits[0]`. -/
theorem stripZeros_all_zero (bits : List ℕ) (hz : ∀ b ∈ bits, b = 0) :
    stripZeros bits = none := by
  induction bits with
  | nil => rfl
  | cons b rest ih =>
    have hb : b = 0 := hz b (List.mem_cons_self b rest)
    have : ∀ x ∈ rest, x = 0 := fun x hx => hz x (List.mem_cons_of_mem b hx)
    simp [stripZeros, hb, ih this]

/-- Claim C2 (code_bug evidence): on every non-empty all-zero bit sequence
`get_bytes` crashes with an uncaught `IndexError` (modelled `none`) instead
of failing with `DecodeError` (`noBits`) as the claim and the spec require:
the zero-strip loop `while bits[0] == 0: bits = bits[1:]` eventually
evaluates `bits[0]` on the empty list. -/
theorem c2_all_zero_crashes (bits : List ℕ) (hne : bits ≠ [])
    (hz : ∀ b ∈ bits, b = 0) : get_bytes bits = none := by
  unfold get_bytes
  rw [if_neg hne, stripZeros_all_zero bits hz]

/-- Witness for C2 at the concrete input `[0]`. -/
theorem c2_all_zero_crashes_witness : get_bytes [0] = none :=
  c2_all_zero_crashes [0] (by decide) (by decide)

/-- Helper for C3: running the decode loop over non-sentinel groups `mids`
followed by the end sentinel `q`, the literal LRC group and anything beyond:
the accumulator is the fold of `lrcStep` over all groups up to and including
`q`, exactly one further group `realLrc` is consumed, the outcome is decided
by comparing it with the finalized accumulator, and the yielded characters
are exactly the decoded `mids`. -/
theorem decodeLoop_run (mids : List (List ℕ)) :
    ∀ (lrc q realLrc : List ℕ) (tail : List (List ℕ)),
      (∀ m ∈ mids, bcd_chr m ≠ 63) → bcd_chr q = 63 →
      decodeLoop lrc (mids ++ q :: realLrc :: tail) =
        if realLrc = finalizeLRC (List.foldl lrcStep lrc (mids ++ [q]))
        then Except.ok (mids.map bcd_chr)
        else Except.error DecodeError.badLRC := by
  induction mids with
  | nil =>
    intro lrc q realLrc tail _ hq
    simp [decodeLoop, hq]
  | cons m ms ih =>
    intro lrc q realLrc tail hm hq
    have hm1 : bcd_chr m ≠ 63 := hm m (List.mem_cons_self m ms)
    have hm2 : ∀ x ∈ ms, bcd_chr x ≠ 63 :=
      fun x hx => hm x (List.mem_cons_of_mem m hx)
    rw [List.cons_append]
    simp only [decodeLoop, hm1, if_neg, ite_false]
    rw [ih (lrcStep lrc m) q realLrc tail hm2 hq]
    by_cases hc :
        realLrc = finalizeLRC (lrcStep (List.foldl lrcStep (lrcStep lrc m) ms) q)
    · simp [List.foldl_cons, List.foldl_append, hc]
    · simp [List.foldl_cons, List.foldl_append, hc]

/-- Claim C3 (confirmed): in `get_bcd_chars`, on encountering the `'?'`
end sentinel the accumulator's parity bit is finalized as
`(1 + sum of data bits) mod 2` (`finalizeLRC`), exactly one more group is
consumed as the literal trailing LRC byte, `DecodeError` `badLRC` is raised
iff that group differs from the finalized accumulator, and otherwise the
decode completes successfully with the decoded middle characters. -/
theorem c3_lrc_finalize_and_check (start q realLrc : List ℕ)
    (mids tail : List (List ℕ))
    (hs : bcd_chr start = 59)
    (hm : ∀ m ∈ mids, bcd_chr m ≠ 63)
    (hq : bcd_chr q = 63) :
    get_bcd_chars (start :: (mids ++ q :: realLrc :: tail)) =
      some (if realLrc = finalizeLRC (List.foldl lrcStep start (mids ++ [q]))
            then Except.ok (mids.map bcd_chr)
            else Except.error DecodeError.badLRC) := by
  simp [get_bcd_chars, decodeRecord, hs,
    decodeLoop_run mids start q realLrc tail hm hq]

/-- Witness for C3 at a concrete record: start `';'`, one middle character
`'>'`, end sentinel `'?'`, trailing LRC group `[0,1,0,1,1]`. -/
theorem c3_lrc_finalize_and_check_witness :
    get_bcd_chars ([1, 1, 0, 1, 0] ::
        ([[0, 1, 1, 1, 0]] ++ [1, 1, 1, 1, 1] :: [0, 1, 0, 1, 1] :: [])) =
      some (if [0, 1, 0, 1, 1] =
            finalizeLRC (List.foldl lrcStep [1, 1, 0, 1, 0]
              ([[0, 1, 1, 1, 0]] ++ [[1, 1, 1, 1, 1]]))
            then Except.ok ([[0, 1, 1, 1, 0]].map bcd_chr)
            else Except.error DecodeError.badLRC) :=
  c3_lrc_finalize_and_check [1, 1, 0, 1, 0] [1, 1, 1, 1, 1] [0, 1, 0, 1, 1]
    [[0, 1, 1, 1, 0]] [] (by decide) (by decide) (by decide)

/-- Helper for C10: if the group list ends right after the end sentinel, the
decode loop hits `StopIteration` at `real_lrc = next(ibytes)` and fails with
`DecodeError` `noEnd`. -/
theorem decodeLoop_exhausted_after_sentinel (mids : List (List ℕ)) :
    ∀ (lrc q : List ℕ), (∀ m ∈ mids, bcd_chr m ≠ 63) → bcd_chr q = 63 →
      decodeLoop lrc (mids ++ [q]) = Except.error DecodeError.noEnd := by
  induction mids with
  | nil =>
    intro lrc q _ hq
    simp [decodeLoop, hq]
  | cons m ms ih =>
    intro lrc q hm hq
    have hm1 : bcd_chr m ≠ 63 := hm m (List.mem_cons_self m ms)
    have hm2 : ∀ x ∈ ms, bcd_chr x ≠ 63 :=
      fun x hx => hm x (List.mem_cons_of_mem m hx)
    rw [List.cons_append]
    simp only [decodeLoop, hm1, if_neg, ite_false]
    rw [ih (lrcStep lrc m) q hm2 hq]

/-- Claim C10 (confirmed): when `get_bcd_chars` meets the `'?'` end sentinel
but the group sequence is exhausted before a trailing LRC group can be
consumed, it fails with the no-end-sentinel `DecodeError` (`noEnd`, the same
error as exhaustion before `'?'`), not with `badLRC`. -/
theorem c10_no_lrc_group_is_noEnd (start q : List ℕ) (mids : List (List ℕ))
    (hs : bcd_chr start = 59)
    (hm : ∀ m ∈ mids, bcd_chr m ≠ 63)
    (hq : bcd_chr q = 63) :
    get_bcd_chars (start :: (mids ++ [q])) =
      some (Except.error DecodeError.noEnd) := by
  simp [get_bcd_chars, decodeRecord, hs,
    decodeLoop_exhausted_after_sentinel mids start q hm hq]

/-- Witness for C10 at the concrete record `';' '?'` with no trailing LRC
group. -/
theorem c10_no_lrc_group_is_noEnd_witness :
    get_bcd_chars ([1, 1, 0, 1, 0] :: ([] ++ [[1, 1, 1, 1, 1]])) =
      some (Except.error DecodeError.noEnd) :=
  c10_no_lrc_group_is_noEnd [1, 1, 0, 1, 0] [1, 1, 1, 1, 1] []
    (by decide) (by decide) (by decide)

/-- Claim C9 (confirmed): for every 5-bit group, `bcd_chr` returns
`chr(v + 48)` where `v` is the value of the 4 data bits read in reverse
order (`b0` least significant), and the parity bit never influences the
decoded character. -/
theorem c9_bcd_chr_value (b0 b1 b2 b3 p q : ℕ)
    (h0 : b0 ≤ 1) (h1 : b1 ≤ 1) (h2 : b2 ≤ 1) (h3 : b3 ≤ 1) :
    bcd_chr [b0, b1, b2, b3, p] = b0 + 2 * b1 + 4 * b2 + 8 * b3 + 48 ∧
      bcd_chr [b0, b1, b2, b3, p] = bcd_chr [b0, b1, b2, b3, q] := by
  constructor
  · simp [bcd_chr]
    ring
  · simp [bcd_chr]

/-- Witness for C9 at the `';'` group `[1,1,0,1]` with parity bits 0, 1. -/
theorem c9_bcd_chr_value_witness :
    bcd_chr [1, 1, 0, 1, 0] = 1 + 2 * 1 + 4 * 0 + 8 * 1 + 48 ∧
      bcd_chr [1, 1, 0, 1, 0] = bcd_chr [1, 1, 0, 1, 1] :=
  c9_bcd_chr_value 1 1 0 1 0 1 (by decide) (by decide) (by decide) (by decide)

/-- Claim C4 (counterexample): direction symmetry fails on the record
`"; > ?"` with trailing LRC `[0,1,0,1,1]`.  The forward orientation decodes
successfully to the single character `'>'` (62), but the fully reversed
sequence (reversed group order, each group bit-reversed) happens to begin
with a group that decodes to `';'`, so the decoder does not un-reverse it,
reads the reversed `'?'` group as an immediate end sentinel and fails with
`DecodeError` `badLRC`. -/
theorem c4_counterexample :
    get_bcd_chars
        [[1, 1, 0, 1, 0], [0, 1, 1, 1, 0], [1, 1, 1, 1, 1], [0, 1, 0, 1, 1]] =
      some (Except.ok [62]) ∧
    get_bcd_chars
        (([[1, 1, 0, 1, 0], [0, 1, 1, 1, 0], [1, 1, 1, 1, 1], [0, 1, 0, 1, 1]]
          : List (List ℕ)).reverse.map List.reverse) =
      some (Except.error DecodeError.badLRC) :=
  ⟨rfl, rfl⟩

/-- Helper for C4: re-orienting a group list twice (reverse the group order
and each group's bit order, twice) gives back the original list. -/
theorem reorient_reorient (l : List (List ℕ)) :
    ((l.reverse.map List.reverse).reverse.map List.reverse) = l := by
  simp [List.map_reverse, List.reverse_reverse, List.map_map, Function.comp]

/-- Claim C4 (amended): if a group sequence starting with a `';'` group
decodes successfully in the forward orientation, and the fully reversed
sequence does not itself begin with a group decoding to `';'`, then the
reversed sequence decodes successfully to the identical character string
(the decoder detects the wrong orientation and un-reverses it). -/
theorem c4_amended (start : List ℕ) (rest : List (List ℕ)) (cs : List ℕ)
    (h1 : bcd_chr start = 59)
    (h2 : get_bcd_chars (start :: rest) = some (Except.ok cs))
    (h3 : bcd_chr (((start :: rest).reverse.map List.reverse).headD []) ≠ 59) :
    get_bcd_chars ((start :: rest).reverse.map List.reverse) =
      some (Except.ok cs) := by
  have hne : (start :: rest).reverse.map List.reverse ≠ [] := by simp
  obtain ⟨r0, rR, hR⟩ := List.exists_cons_of_ne_nil hne
  rw [hR] at h3 ⊢
  simp only [List.headD_cons] at h3
  simp only [get_bcd_chars, if_pos h3]
  rw [← hR, reorient_reorient]
  simp only [get_bcd_chars, h1] at h2
  simpa using h2

/-- Witness for C4 (amended) at the concrete record `';' '?'` with trailing
LRC `[0,0,1,0,0]`: its reversal starts with a group decoding to `'4'`. -/
theorem c4_amended_witness :
    get_bcd_chars (([1, 1, 0, 1, 0] :: [[1, 1, 1, 1, 1], [0, 0, 1, 0, 0]])
        |>.reverse.map List.reverse) =
      some (Except.ok []) :=
  c4_amended [1, 1, 0, 1, 0] [[1, 1, 1, 1, 1], [0, 0, 1, 0, 0]] []
    (by decide) rfl (by decide)

/-- Helper for C5: the list-structural loop emits nothing once fewer than 3
distances remain. -/
theorem bitsSpec_short (clocks : List ℚ) :
    ∀ l : List ℚ, l.length ≤ 2 → bitsSpec clocks l = []
  | [], _ => rfl
  | [_], _ => rfl
  | [_, _], _ => rfl
  | _ :: _ :: _ :: _, h => absurd h (by simp)

/-- Helper for C5: the indexed source loop of `get_bits` agrees with the
list-structural presentation whenever the fuel covers the remaining
distances. -/
theorem getBitsLoop_eq_bitsSpec :
    ∀ (fuel : ℕ) (peaks clocks : List ℚ) (i : ℕ), peaks.length ≤ i + fuel →
      getBitsLoop fuel peaks clocks i = bitsSpec clocks (peaks.drop i) := by
  intro fuel
  induction fuel with
  | zero =>
    intro peaks clocks i hle
    rw [List.drop_eq_nil_of_le (by omega)]
    rfl
  | succ fuel ih =>
    intro peaks clocks i hle
    by_cases hg : i < peaks.length - 2
    · have h3 : 3 ≤ (peaks.drop i).length := by
        rw [List.length_drop]; omega
      obtain ⟨d1, t1, hd1⟩ : ∃ d t, peaks.drop i = d :: t := by
        cases hc : peaks.drop i with
        | nil => rw [hc] at h3; simp at h3
        | cons a b => exact ⟨a, b, rfl⟩
      obtain ⟨d2, t2, hd2⟩ : ∃ d t, t1 = d :: t := by
        cases hc : t1 with
        | nil => rw [hc] at hd1; rw [hd1] at h3; simp at h3
        | cons a b => exact ⟨a, b, rfl⟩
      obtain ⟨d3, t3, hd3⟩ : ∃ d t, t2 = d :: t := by
        cases hc : t2 with
        | nil =>
          rw [hc] at hd2; rw [hd2] at hd1; rw [hd1] at h3; simp at h3
        | cons a b => exact ⟨a, b, rfl⟩
      have hgetD : peaks.getD i 0 = d1 := by
        have h0 : (peaks.drop i)[0]? = peaks[i + 0]? := List.getElem?_drop peaks i 0
        rw [hd1] at h0
        simp at h0
        simp [List.getD_eq_getElem?_getD, ← h0]
      have hdrop1 : peaks.drop (i + 1) = d2 :: d3 :: t3 := by
        have h := List.drop_drop 1 i peaks
        rw [hd1] at h
        rw [hd2, hd3] at h
        simpa using h.symm
      have hdrop2 : peaks.drop (i + 2) = d3 :: t3 := by
        have h := List.drop_drop 2 i peaks
        rw [hd1, hd2, hd3] at h
        simpa using h.symm
      rw [hd1, hd2, hd3]
      simp only [getBitsLoop, if_pos hg, hgetD, bitsSpec]
      by_cases hc : d1 > 3 / 2 * clocks.sum / (clocks.length : ℚ)
      · rw [if_pos hc, if_pos hc, ih peaks _ (i + 1) (by omega), hdrop1]
      · rw [if_neg hc, if_neg hc, ih peaks _ (i + 2) (by omega), hdrop2]
    · have hle2 : (peaks.drop i).length ≤ 2 := by
        rw [List.length_drop]; omega
      simp only [getBitsLoop, if_neg hg]
      exact (bitsSpec_short clocks _ hle2).symm

/-- Claim C5 (amended): each step of the clock-recovery loop behaves as the
claim states — a distance above 1.5 times the clock-window mean emits bit 0,
advances one distance and pushes half that distance; otherwise bit 1 is
emitted, two distances are consumed and the first of them is pushed — and
each push removes the oldest entry, so the window keeps its initial width.
That width is 4 only when at least 4 distances remain after the 5-distance
discard; with exactly 3 remaining the window is 3 wide (see the
counterexample), which is the one part of the claim that fails. -/
theorem c5_step_behavior_and_window :
    (∀ peaks : List ℚ,
      get_bits peaks =
        bitsSpec (((peaks.drop 5).take 4).map (fun p => p / 2))
          (peaks.drop 5)) ∧
      ∀ (clocks : List ℚ) (x : ℚ),
        (pushClock clocks x).length = clocks.length := by
  constructor
  · intro peaks
    show getBitsLoop (peaks.drop 5).length (peaks.drop 5)
        (((peaks.drop 5).take 4).map (fun p => p / 2)) 0 = _
    rw [getBitsLoop_eq_bitsSpec (peaks.drop 5).length (peaks.drop 5) _ 0
        (by omega), List.drop_zero]
  · intro clocks x
    simp [pushClock]

/-- Claim C5 (counterexample): on the 8-distance input
`[1,1,1,1,1,10,2,2]`, only 3 distances remain after the 5-distance discard,
so the clock window is seeded 3 wide, not 4 — and the loop still classifies
a bit (the distance 10 against window `[5, 1, 1]`), contradicting the
claim's "the window always stays exactly 4 wide". -/
theorem c5_window_width_counterexample :
    get_bits [1, 1, 1, 1, 1, 10, 2, 2] = [0] ∧
      ((([1, 1, 1, 1, 1, 10, 2, 2] : List ℚ).drop 5).take 4).map
          (fun p => p / 2) = [5, 1, 1] := by
  constructor
  · norm_num [get_bits, getBitsLoop, pushClock]
  · norm_num

/-- Claim C6 (amended): the classification loop of `get_bits` stops exactly
when fewer than 3 distances remain unconsumed (`while i < len(peaks) - 2`),
and classifies another bit whenever 3 or more remain; consequently
`get_bits` emits at least one bit exactly when the input holds at least 8
distances (5 discarded + 3 remaining). -/
theorem c6_stop_condition :
    (∀ peaks : List ℚ, get_bits peaks = [] ↔ peaks.length < 8) ∧
      ∀ (fuel : ℕ) (peaks clocks : List ℚ) (i : ℕ),
        getBitsLoop (fuel + 1) peaks clocks i = [] ↔ peaks.length < i + 3 := by
  have hloop : ∀ (fuel : ℕ) (peaks clocks : List ℚ) (i : ℕ),
      getBitsLoop (fuel + 1) peaks clocks i = [] ↔ peaks.length < i + 3 := by
    intro fuel peaks clocks i
    by_cases hg : i < peaks.length - 2
    · simp only [getBitsLoop, if_pos hg]
      refine iff_of_false ?_ (by omega)
      intro h
      by_cases hc :
          peaks.getD i 0 > 3 / 2 * clocks.sum / (clocks.length : ℚ)
      · rw [if_pos hc] at h; exact List.cons_ne_nil _ _ h
      · rw [if_neg hc] at h; exact List.cons_ne_nil _ _ h
    · simp only [getBitsLoop, if_neg hg]
      constructor
      · intro _; omega
      · intro _; trivial
  refine ⟨?_, hloop⟩
  intro peaks
  show getBitsLoop (peaks.drop 5).length (peaks.drop 5)
      (((peaks.drop 5).take 4).map (fun p => p / 2)) 0 = [] ↔ _
  cases hn : (peaks.drop 5).length with
  | zero =>
    have hlen : peaks.length ≤ 5 := by
      rw [List.length_drop] at hn; omega
    constructor
    · intro _; omega
    · intro _; rfl
  | succ m =>
    rw [hloop m (peaks.drop 5) _ 0, List.length_drop]
    rw [List.length_drop] at hn
    omega

/-- Claim C6 (counterexample): on the 7-distance input `[4,4,4,4,4,10,2]`,
2 distances remain unconsumed after the 5-distance discard, yet `get_bits`
classifies no bit at all — the loop `while i < len(peaks) - 2` already stops
with 2 distances remaining, contradicting the claim that a bit is classified
whenever 2 or more distances remain. -/
theorem c6_two_remaining_counterexample :
    get_bits [4, 4, 4, 4, 4, 10, 2] = [] ∧
      (([4, 4, 4, 4, 4, 10, 2] : List ℚ).drop 5).length = 2 := by
  constructor
  · norm_num [get_bits, getBitsLoop]
  · norm_num

/-- Claim C7 (code_bug evidence): `get_peaks` reads past the buffer end.
On the 3-sample buffer `[5,5,5]` the adaptive threshold is 0 (a constant
fragment has peak-to-peak swing 0), every sample exceeds it, so the very
first polarity run pushes the index to 3 and the loop guard evaluates
`samples[3]` — an uncaught `IndexError` (`none`); the claim says the
extractor terminates normally without ever reading outside the buffer. -/
theorem c7_out_of_bounds_read : get_peaks [5, 5, 5] = none := by
  have h1 : (maxpp (([5, 5, 5] : List ℤ).take 500) : ℚ) * (4 / 5) = 0 := by
    norm_num [show maxpp ([5, 5, 5] : List ℤ) = 0 from by decide]
  show peaksLoop (([5, 5, 5] : List ℤ).length + 1) [5, 5, 5]
      ((maxpp (([5, 5, 5] : List ℤ).take 500) : ℚ) * (4 / 5)) 1 0 0 = none
  rw [h1]
  decide

/-- Helper for C8: a sample equal to the previous one is skipped by the
`maxpp` scan. -/
theorem maxppGo_skip (v : ℤ) (rest : List ℤ) (pd : Option Bool)
    (pe : Option ℤ) (m : ℤ) :
    maxppGo (v :: rest) v pd pe m = maxppGo rest v pd pe m := by
  simp [maxppGo]

/-- Helper for C8: a constant run is skipped whole by the `maxpp` scan. -/
theorem maxppGo_replicate (n : ℕ) (v : ℤ) (rest : List ℤ) (pd : Option Bool)
    (pe : Option ℤ) (m : ℤ) :
    maxppGo (List.replicate n v ++ rest) v pd pe m = maxppGo rest v pd pe m := by
  induction n with
  | zero => simp
  | succ k ih => rw [List.replicate_succ, List.cons_append, maxppGo_skip, ih]

/-- Helper for C8: `maxpp` of a buffer opening with a constant run of at
least 2 samples reduces to the scan of the remainder. -/
theorem maxpp_replicate_append (n : ℕ) (v : ℤ) (rest : List ℤ) (h : 2 ≤ n) :
    maxpp (List.replicate n v ++ rest) = maxppGo rest v none none 0 := by
  obtain ⟨k, rfl⟩ : ∃ k, n = k + 2 := ⟨n - 2, by omega⟩
  rw [List.replicate_succ, List.replicate_succ, List.cons_append,
    List.cons_append]
  show maxppGo (v :: (List.replicate k v ++ rest)) v none none 0 = _
  rw [maxppGo_skip, maxppGo_replicate]

/-- Helper for C8: one unfolding of the `maxpp` scan on a non-empty list,
with the rest of the list left untouched. -/
theorem maxppGo_cons_step (val prevval : ℤ) (rest : List ℤ) (pd : Option Bool)
    (pe : Option ℤ) (m : ℤ) :
    maxppGo (val :: rest) prevval pd pe m =
      if val ≠ prevval then
        if pd = some (!(decide (val < prevval))) then
          maxppGo rest val (some (decide (val < prevval))) (some prevval)
            (match pe with
             | some p => max |prevval - p| m
             | none => m)
        else maxppGo rest val (some (decide (val < prevval))) pe m
      else maxppGo rest prevval pd pe m := rfl

/-- Helper for C8: scan state after reading a rising sample 0 to 1000. -/
theorem maxppGo_c8_s1 (rest : List ℤ) :
    maxppGo ((1000 : ℤ) :: rest) 0 none none 0 =
      maxppGo rest 1000 (some false) none 0 := by
  rw [maxppGo_cons_step]
  norm_num
  simp

/-- Helper for C8: the fall from 1000 back to 0 records the first extreme. -/
theorem maxppGo_c8_s2 (rest : List ℤ) :
    maxppGo ((0 : ℤ) :: rest) 1000 (some false) none 0 =
      maxppGo rest 0 (some true) (some 1000) 0 := by
  rw [maxppGo_cons_step]
  norm_num

/-- Helper for C8: the rise back to 1000 measures a swing of 1000. -/
theorem maxppGo_c8_s3 (rest : List ℤ) :
    maxppGo ((1000 : ℤ) :: rest) 0 (some true) (some 1000) 0 =
      maxppGo rest 1000 (some false) (some 0) 1000 := by
  rw [maxppGo_cons_step]
  norm_num

/-- Helper for C8: the final fall to the quiet tail keeps the maximum. -/
theorem maxppGo_c8_s4 (rest : List ℤ) :
    maxppGo ((0 : ℤ) :: rest) 1000 (some false) (some 0) 1000 =
      maxppGo rest 0 (some true) (some 1000) 1000 := by
  rw [maxppGo_cons_step]
  norm_num

/-- Helper for C8: the scan of the spike pair and quiet tail yields a
peak-to-peak swing of 1000. -/
theorem maxppGo_c8_loud :
    maxppGo (([1000, 0, 1000] ++ List.replicate 497 0) : List ℤ)
      0 none none 0 = 1000 := by
  show maxppGo ((1000 : ℤ) :: 0 :: 1000 :: List.replicate 497 0) 0 none none 0 = 1000
  rw [maxppGo_c8_s1, maxppGo_c8_s2, maxppGo_c8_s3,
    show List.replicate 497 (0 : ℤ) = 0 :: List.replicate 496 0 from rfl,
    maxppGo_c8_s4, ← List.append_nil (List.replicate 496 (0 : ℤ)),
    maxppGo_replicate]
  rfl

/-- Helper for C8: the front probe window of `c8data` is quiet. -/
theorem maxpp_c8_front : maxpp (c8data.take 1500) = 0 := by
  rw [show c8data.take 1500 = List.replicate 1500 (0 : ℤ) from
    List.take_left' (by simp), ← List.append_nil (List.replicate 1500 (0 : ℤ)),
    maxpp_replicate_append 1500 0 [] (by norm_num)]
  rfl

/-- Helper for C8: after dropping 500 samples the probe window contains the
spike pair. -/
theorem maxpp_c8_after_drop : maxpp ((c8data.drop 500).take 1500) = 1000 := by
  have hdrop : c8data.drop 500 =
      List.replicate 1000 (0 : ℤ) ++ ([1000, 0, 1000] ++ List.replicate 497 0) := by
    rw [c8data, List.drop_append_of_le_length (by simp), List.drop_replicate]
  have htake : (c8data.drop 500).take 1500 = c8data.drop 500 := by
    apply List.take_of_length_le
    rw [hdrop]
    simp
  rw [htake, hdrop, maxpp_replicate_append 1000 0 _ (by norm_num),
    maxppGo_c8_loud]

/-- Helper for C8: the whole 2000-sample buffer has swing 1000. -/
theorem maxpp_c8_whole : maxpp c8data = 1000 := by
  rw [c8data, maxpp_replicate_append 1500 0 _ (by norm_num), maxppGo_c8_loud]

/-- Helper for C8: the front-trim loop stops when the probe window is no
longer quiet. -/
theorem trimFrontFuel_stop (fuel : ℕ) (data : List ℤ) (b : ℚ)
    (h : ¬ ((maxpp (data.take 1500) : ℚ) < b / 2)) :
    trimFrontFuel (fuel + 1) data b = some data := by
  simp [trimFrontFuel, h]

/-- Helper for C8: the front-trim loop drops 500 samples while the probe
window is quiet. -/
theorem trimFrontFuel_step (fuel : ℕ) (data : List ℤ) (b : ℚ)
    (h : (maxpp (data.take 1500) : ℚ) < b / 2) (h2 : data ≠ []) :
    trimFrontFuel (fuel + 1) data b = trimFrontFuel fuel (data.drop 500) b := by
  simp [trimFrontFuel, h, h2]

/-- Helper for C8: the spec-words trim loop stops when its 3000-sample
window is no longer quiet. -/
theorem trimFrontSpecFuel_stop (fuel : ℕ) (data : List ℤ) (b : ℚ)
    (h : ¬ ((maxpp (data.take 3000) : ℚ) < b / 2)) :
    trimFrontSpecFuel (fuel + 1) data b = some data := by
  simp [trimFrontSpecFuel, h]

/-- Claim C8 (counterexample): on the concrete 2000-sample buffer `c8data`
with baseline 10, the source's front trim drops one 1000-byte block — 500
samples, leaving 1500 — while a trim that dropped 1000-sample blocks under
a 3000-sample probe window (the claim's words) would stop immediately and
leave all 2000 samples: the source trims in bytes, half the claimed sample
counts. -/
theorem c8_counterexample :
    (trim_front c8data 10).map List.length = some 1500 ∧
      (trim_front_spec c8data 10).map List.length = some 2000 := by
  have hlen : c8data.length = 2000 := by simp [c8data]
  constructor
  · show (trimFrontFuel (c8data.length + 1) c8data 10).map List.length = _
    rw [trimFrontFuel_step _ _ _ (by rw [maxpp_c8_front]; norm_num)
        (by simp [c8data]), show c8data.length = 1999 + 1 from by rw [hlen],
      trimFrontFuel_stop _ _ _ (by rw [maxpp_c8_after_drop]; norm_num)]
    simp [hlen]
  · show (trimFrontSpecFuel (c8data.length + 1) c8data 10).map List.length = _
    have hwhole : c8data.take 3000 = c8data :=
      List.take_of_length_le (by rw [hlen]; norm_num)
    rw [trimFrontSpecFuel_stop _ _ _ (by rw [hwhole, maxpp_c8_whole]; norm_num)]
    simp [hlen]

/-- Helper for C8: any successful run of the front-trim loop dropped some
number of 500-sample blocks, the probe condition held before every drop and
fails on the result. -/
theorem trimFrontFuel_characterization :
    ∀ (fuel : ℕ) (data : List ℤ) (b : ℚ) (out : List ℤ),
      trimFrontFuel fuel data b = some out →
      ∃ n : ℕ, out = data.drop (500 * n) ∧
        ¬ ((maxpp (out.take 1500) : ℚ) < b / 2) ∧
        ∀ m < n, (maxpp ((data.drop (500 * m)).take 1500) : ℚ) < b / 2 := by
  intro fuel
  induction fuel with
  | zero => intro data b out h; simp [trimFrontFuel] at h
  | succ fuel ih =>
    intro data b out h
    by_cases hc : (maxpp (data.take 1500) : ℚ) < b / 2
    · by_cases hne : data = []
      · exfalso
        subst hne
        simp only [List.take_nil] at hc
        simp [trimFrontFuel, hc] at h
      · rw [trimFrontFuel_step fuel data b hc hne] at h
        obtain ⟨n, hout, hstop, hall⟩ := ih (data.drop 500) b out h
        refine ⟨n + 1, ?_, hstop, ?_⟩
        · rw [hout, List.drop_drop]
          congr 1
          ring
        · intro m hm
          cases m with
          | zero => simpa using hc
          | succ k =>
            have hx := hall k (by omega)
            have harith : 500 * (k + 1) = 500 + 500 * k := by ring
            rw [harith, ← List.drop_drop]
            exact hx
    · rw [trimFrontFuel_stop fuel data b hc] at h
      obtain rfl := Option.some.inj h
      refine ⟨0, by simp, by simpa using hc, ?_⟩
      intro m hm
      exact absurd hm (by omega)

/-- Helper for C8: the same characterization for the back-trim loop, which
takes away trailing 500-sample blocks. -/
theorem trimBackFuel_characterization :
    ∀ (fuel : ℕ) (data : List ℤ) (b : ℚ) (out : List ℤ),
      trimBackFuel fuel data b = some out →
      ∃ n : ℕ, out = data.take (data.length - 500 * n) ∧
        ¬ ((maxpp (out.drop (out.length - 1500)) : ℚ) < b / 2) ∧
        ∀ m < n,
          (maxpp ((data.take (data.length - 500 * m)).drop
            ((data.take (data.length - 500 * m)).length - 1500)) : ℚ) < b / 2 := by
  intro fuel
  induction fuel with
  | zero => intro data b out h; simp [trimBackFuel] at h
  | succ fuel ih =>
    intro data b out h
    by_cases hc : (maxpp (data.drop (data.length - 1500)) : ℚ) < b / 2
    · by_cases hne : data = []
      · exfalso
        subst hne
        simp only [List.drop_nil] at hc
        simp [trimBackFuel, hc] at h
      · have hstep : trimBackFuel (fuel + 1) data b =
            trimBackFuel fuel (data.take (data.length - 500)) b := by
          simp [trimBackFuel, hc, hne]
        rw [hstep] at h
        obtain ⟨n, hout, hstop, hall⟩ := ih _ b out h
        have hlen : (data.take (data.length - 500)).length =
            data.length - 500 := by
          rw [List.length_take]; omega
        have hcollapse : ∀ j : ℕ,
            (data.take (data.length - 500)).take
                ((data.take (data.length - 500)).length - 500 * j) =
              data.take (data.length - 500 * (j + 1)) := by
          intro j
          rw [hlen, List.take_take,
            show min (data.length - 500 - 500 * j) (data.length - 500) =
              data.length - 500 * (j + 1) from by omega]
        refine ⟨n + 1, ?_, hstop, ?_⟩
        · rw [hout, hcollapse n]
        · intro m hm
          cases m with
          | zero => simpa using hc
          | succ k =>
            have hx := hall k (by omega)
            rw [← hcollapse k]
            exact hx
    · have hstop2 : trimBackFuel (fuel + 1) data b = some data := by
        simp [trimBackFuel, hc]
      rw [hstop2] at h
      obtain rfl := Option.some.inj h
      refine ⟨0, by simp, by simpa using hc, ?_⟩
      intro m hm
      exact absurd hm (by omega)

/-- Claim C8 (amended): after acceptance, each edge of the buffer is trimmed
by repeatedly dropping a 500-sample block (1000 bytes — the claim said 1000
samples) while the probe window of 1500 samples (3000 bytes — the claim
said 3000 samples) at that edge has peak-to-peak amplitude below half the
baseline: every result of `trim_front` or `trim_back` is the input minus
some number of 500-sample edge blocks, the probe condition held before each
dropped block and fails at the result. -/
theorem c8_trim_loop_characterization :
    (∀ (data : List ℤ) (b : ℚ) (out : List ℤ),
        trim_front data b = some out →
        ∃ n : ℕ, out = data.drop (500 * n) ∧
          ¬ ((maxpp (out.take 1500) : ℚ) < b / 2) ∧
          ∀ m < n, (maxpp ((data.drop (500 * m)).take 1500) : ℚ) < b / 2) ∧
      ∀ (data : List ℤ) (b : ℚ) (out : List ℤ),
        trim_back data b = some out →
        ∃ n : ℕ, out = data.take (data.length - 500 * n) ∧
          ¬ ((maxpp (out.drop (out.length - 1500)) : ℚ) < b / 2) ∧
          ∀ m < n,
            (maxpp ((data.take (data.length - 500 * m)).drop
              ((data.take (data.length - 500 * m)).length - 1500)) : ℚ) < b / 2 := by
  constructor
  · intro data b out h
    exact trimFrontFuel_characterization (data.length + 1) data b out h
  · intro data b out h
    exact trimBackFuel_characterization (data.length + 1) data b out h

/-- Witness for C8 (amended) at the concrete input of the empty buffer and
baseline 0, on which the front trim stops immediately. -/
theorem c8_trim_loop_characterization_witness :
    ∃ n : ℕ, ([] : List ℤ) = ([] : List ℤ).drop (500 * n) ∧
      ¬ ((maxpp (([] : List ℤ).take 1500) : ℚ) < 0 / 2) ∧
      ∀ m < n, (maxpp ((([] : List ℤ).drop (500 * m)).take 1500) : ℚ) < 0 / 2 :=
  c8_trim_loop_characterization.1 [] 0 []
    (trimFrontFuel_stop 0 [] 0 (by norm_num [maxpp]))
